import Mathlib

/-!
Verification of the BillSplit balance-settlement computation.

The definitions below are a shallow embedding of the code in
`src/app/(tabs)/dashboard.tsx` (the `summaryData` and `friendBalances`
memos and the `getUniqueFriends` helper), `src/app/settle-up.tsx`
(its own inline `friendBalances` memo), and `src/lib/paymentUtils.ts`
(`handlePaymentRedirect`).  JS numbers are modelled as rationals, and the
`Record<string, number>` of running debts as a total function `String → ℚ`
defaulting to `0` (the source initialises every key it will ever touch
to `0`, and reads through `(friendDebts[p] || 0)`, which is exactly the
default-`0` read).  String comparison (`localeCompare` used for the final
sort) is modelled as lexicographic order on the underlying character
lists.
-/

namespace BillSplit

/-- An expense record, after the `Expense` interface of
`contexts/ExpenseContext.tsx`: an id, a title, an amount, a date, the
name of who paid, and the list of participants the amount is split
between.  The current user appears in `paidBy`/`splitWith` as the
sentinel string `"You"`. -/
structure Expense where
  id : String
  title : String
  amount : ℚ
  date : String
  paidBy : String
  splitWith : List String

/-- Assignment `friendDebts[name] = friendDebts[name] + delta` on the
debts record. -/
def updateDebt (debts : String → ℚ) (name : String) (delta : ℚ) : String → ℚ :=
  fun x => if x = name then debts x + delta else debts x

/-- The `expense.splitWith.forEach` loop of the `paidBy === 'You'` branch
in `dashboard.tsx` (lines 70-74): every participant other than `'You'`
is credited `share`. -/
def creditSplit (debts : String → ℚ) (people : List String) (share : ℚ) : String → ℚ :=
  people.foldl (fun d person => if person = "You" then d else updateDebt d person share) debts

/-- The body of the per-expense loop shared by the two debt computations
in `dashboard.tsx` (lines 116-134) and `settle-up.tsx` (lines 179-196):
skip when `splitWith` is empty, otherwise split `amount` evenly; if
`'You'` paid, credit every other participant their share, else debit the
payer by the user's share when `'You'` is among the participants. -/
def processExpense (debts : String → ℚ) (e : Expense) : String → ℚ :=
  if e.splitWith.length = 0 then debts
  else
    let share := e.amount / (e.splitWith.length : ℚ)
    if e.paidBy = "You" then creditSplit debts e.splitWith share
    else if "You" ∈ e.splitWith then updateDebt debts e.paidBy (-share)
    else debts

/-- Running debts after the whole expense list, starting from the all-zero
record. -/
def friendDebts (expenses : List Expense) : String → ℚ :=
  expenses.foldl processExpense (fun _ => 0)

/-- Insertion into the participants `Set` of `getUniqueFriends`
(`dashboard.tsx` lines 22-35): a JS `Set` keeps first-insertion order,
so a name already seen is dropped and a new one goes to the back. -/
def insertNew (seen : List String) (name : String) : List String :=
  if name ∈ seen then seen else seen ++ [name]

/-- The names one expense feeds into the participants `Set`, in the order
the source visits them: `paidBy` when it is not `'You'`, then the
`splitWith` entries other than `'You'`. -/
def expenseParticipants (e : Expense) : List String :=
  (if e.paidBy = "You" then [] else [e.paidBy]) ++
    e.splitWith.filter (fun person => decide (person ≠ "You"))

/-- `getUniqueFriends` of `dashboard.tsx`: all participants over all
expenses, the sentinel `'You'` excluded, in first-appearance order. -/
def getUniqueFriends (expenses : List Expense) : List String :=
  expenses.foldl (fun seen e => (expenseParticipants e).foldl insertNew seen) []

/-- Entries pushed onto `balances` in `dashboard.tsx` lines 136-140:
iterate the debts record in key order (`getUniqueFriends` order) and keep
the pairs whose amount has absolute value above the `0.01` epsilon. -/
def balanceEntries (expenses : List Expense) : List (String × ℚ) :=
  (getUniqueFriends expenses).filterMap fun name =>
    if 1/100 < |friendDebts expenses name| then some (name, friendDebts expenses name) else none

/-- The comparator of `balances.sort((a, b) => a.name.localeCompare(b.name))`:
names compared lexicographically by character. -/
def nameLe (a b : String × ℚ) : Prop := a.1.data ≤ b.1.data

instance : DecidableRel nameLe :=
  fun a b => inferInstanceAs (Decidable (a.1.data ≤ b.1.data))

/-- The `friendBalances` memo of `dashboard.tsx` (lines 110-143): the
epsilon-filtered entries sorted by name. -/
def friendBalances (expenses : List Expense) : List (String × ℚ) :=
  List.insertionSort nameLe (balanceEntries expenses)

/-- The scalar result of the `summaryData` memo of `dashboard.tsx`. -/
structure Summary where
  totalSpent : ℚ
  youPaid : ℚ
  youOwe : ℚ
  youAreOwed : ℚ
  netBalance : ℚ

/-- The accumulator of the `expenses.forEach` loop in `summaryData`
(`dashboard.tsx` lines 59-86). -/
structure SummaryAcc where
  totalSpent : ℚ
  youPaid : ℚ
  debts : String → ℚ

/-- One iteration of the `summaryData` loop: `totalSpent` always grows by
`amount`; an empty split then returns early (before `youPaid` is
touched); otherwise the same credit/debit logic as `processExpense`
runs, and `youPaid` grows by `amount` exactly in the `paidBy === 'You'`
branch. -/
def summaryStep (acc : SummaryAcc) (e : Expense) : SummaryAcc :=
  let totalSpent := acc.totalSpent + e.amount
  if e.splitWith.length = 0 then
    { acc with totalSpent := totalSpent }
  else
    let share := e.amount / (e.splitWith.length : ℚ)
    if e.paidBy = "You" then
      { totalSpent := totalSpent, youPaid := acc.youPaid + e.amount,
        debts := creditSplit acc.debts e.splitWith share }
    else if "You" ∈ e.splitWith then
      { acc with totalSpent := totalSpent, debts := updateDebt acc.debts e.paidBy (-share) }
    else
      { acc with totalSpent := totalSpent }

/-- The `summaryData` memo of `dashboard.tsx` (lines 47-107): run the
per-expense loop, then total the positive debts into `youAreOwed` and
the absolute values of the remaining debts into `youOwe` by a pass over
the record's values, and set `netBalance` to their difference. -/
def summaryData (expenses : List Expense) : Summary :=
  let acc := expenses.foldl summaryStep { totalSpent := 0, youPaid := 0, debts := fun _ => 0 }
  let debtsList := (getUniqueFriends expenses).map acc.debts
  let totalYouAreOwed := debtsList.foldl (fun t a => if 0 < a then t + a else t) 0
  let totalYouOwe := debtsList.foldl (fun t a => if 0 < a then t else t + |a|) 0
  { totalSpent := acc.totalSpent, youPaid := acc.youPaid,
    youOwe := totalYouOwe, youAreOwed := totalYouAreOwed,
    netBalance := totalYouAreOwed - totalYouOwe }

/-- Sum of the positive amounts of a balance list (the quantity the spec
relates to `youAreOwed`). -/
def posSum (l : List (String × ℚ)) : ℚ :=
  ((l.map Prod.snd).filter (fun a => decide (0 < a))).sum

/-- Sum of the absolute values of the negative amounts of a balance list
(the quantity the spec relates to `youOwe`). -/
def negSum (l : List (String × ℚ)) : ℚ :=
  (((l.map Prod.snd).filter (fun a => decide (a < 0))).map (fun a => |a|)).sum

namespace SettleUp

/-- The inline participants collection of the `friendBalances` memo in
`settle-up.tsx` (lines 163-176), written out independently of the
dashboard's helper: the same `Set`-building loop over `paidBy` and
`splitWith`. -/
def collectParticipants (expenses : List Expense) : List String :=
  expenses.foldl
    (fun seen e =>
      ((if e.paidBy = "You" then [] else [e.paidBy]) ++
          e.splitWith.filter (fun person => decide (person ≠ "You"))).foldl
        (fun s name => if name ∈ s then s else s ++ [name]) seen)
    []

/-- The per-expense debt loop of `settle-up.tsx` (lines 179-196). -/
def settleStep (debts : String → ℚ) (e : Expense) : String → ℚ :=
  if e.splitWith.length = 0 then debts
  else
    let share := e.amount / (e.splitWith.length : ℚ)
    if e.paidBy = "You" then
      e.splitWith.foldl
        (fun d person =>
          if person = "You" then d else fun x => if x = person then d x + share else d x)
        debts
    else if "You" ∈ e.splitWith then
      fun x => if x = e.paidBy then debts x + -share else debts x
    else debts

/-- The `friendBalances` memo of `settle-up.tsx` (lines 160-205): its own
copy of the debts computation, the `0.01` filter and the
`localeCompare` sort. -/
def friendBalances (expenses : List Expense) : List (String × ℚ) :=
  let debts := expenses.foldl settleStep (fun _ => 0)
  let balances := (collectParticipants expenses).filterMap fun name =>
    if 1/100 < |debts name| then some (name, debts name) else none
  List.insertionSort nameLe balances

end SettleUp

namespace PaymentUtils

/-- A character the sanitiser keeps: the regex class `[a-zA-Z0-9@$]` of
`paymentUtils.ts` line 14. -/
def allowedChar (c : Char) : Bool :=
  ('a' ≤ c && c ≤ 'z') || ('A' ≤ c && c ≤ 'Z') || ('0' ≤ c && c ≤ '9') || c == '@' || c == '$'

/-- `username.replace(/[^a-zA-Z0-9@$]/g, '')`: drop every character
outside the allowed class. -/
def cleanUsername (u : String) : String := String.mk (u.data.filter allowedChar)

/-- JS `String.prototype.replace` with the string pattern `'@'` and empty
replacement: it removes only the first occurrence of `'@'`. -/
def removeFirstAt : List Char → List Char
  | [] => []
  | c :: cs => if c = '@' then cs else c :: removeFirstAt cs

/-- The username as it appears in the Venmo URLs:
`cleanUsername.replace('@', '')`. -/
def venmoUsername (u : String) : String := String.mk (removeFirstAt (cleanUsername u).data)

/-- Append the optional amount as a path segment, as in
`${amount ? `/${amount}` : ''}`.  The amount is taken as its rendered
decimal string; JS number-to-string conversion is orthogonal to the
username handling this file is about. -/
def amountPath (amount : Option String) : String :=
  match amount with
  | some a => "/" ++ a
  | none => ""

/-- The Cash App web URL of `handlePaymentRedirect` (also its mobile
fallback URL, which is the same string). -/
def webCashappUrl (username : String) (amount : Option String) : String :=
  "https://cash.app/" ++ cleanUsername username ++ amountPath amount

/-- The Venmo web URL of `handlePaymentRedirect` (also its mobile
fallback URL). -/
def webVenmoUrl (username : String) (amount : Option String) : String :=
  "https://venmo.com/" ++ venmoUsername username ++
    (match amount with
     | some a => "?txn=pay&amount=" ++ a
     | none => "")

/-- The Cash App deep link of `handlePaymentRedirect`. -/
def deepCashappUrl (username : String) (amount : Option String) : String :=
  "cashapp://cash.app/" ++ cleanUsername username ++ amountPath amount

/-- The Venmo deep link of `handlePaymentRedirect`.  The note is taken
after its `encodeURIComponent` rendering. -/
def deepVenmoUrl (username : String) (amount : Option String) (note : Option String) : String :=
  "venmo://paycharge?txn=pay&recipients=" ++ venmoUsername username ++
    (match amount with
     | some a => "&amount=" ++ a
     | none => "") ++
    (match note with
     | some n => "&note=" ++ n
     | none => "")

end PaymentUtils

/-- A one-expense list whose single counterparty balance is exactly the
`0.01` epsilon: the user fronted one cent for Alex alone. -/
def cexEpsilon : Expense :=
  { id := "e1", title := "tiny", amount := 1/100, date := "2024-01-01",
    paidBy := "You", splitWith := ["Alex"] }

/-- An expense paid by the user with an empty `splitWith`. -/
def cexNoSplit : Expense :=
  { id := "e2", title := "solo", amount := 10, date := "2024-01-02",
    paidBy := "You", splitWith := [] }

/-- The P3 scenario: the user pays 90, split three ways among friends. -/
def expenseP3 : Expense :=
  { id := "e3", title := "trip", amount := 90, date := "2024-01-03",
    paidBy := "You", splitWith := ["A", "B", "C"] }

/-- The P4 scenario: friend A pays 60, split between the user and A. -/
def expenseP4 : Expense :=
  { id := "e4", title := "dinner", amount := 60, date := "2024-01-04",
    paidBy := "A", splitWith := ["You", "A"] }

/-- The P6 scenario: counterparties Zed, Amy and Mo, first seen in that
order, each with a non-zero balance. -/
def expensesP6 : List Expense :=
  [ { id := "z", title := "tz", amount := 30, date := "2024-01-05",
      paidBy := "You", splitWith := ["Zed"] },
    { id := "a", title := "ta", amount := 30, date := "2024-01-05",
      paidBy := "You", splitWith := ["Amy"] },
    { id := "m", title := "tm", amount := 30, date := "2024-01-05",
      paidBy := "You", splitWith := ["Mo"] } ]

/-! Basic facts about the debt-updating loops. -/

theorem creditSplit_nil (debts : String → ℚ) (share : ℚ) :
    creditSplit debts [] share = debts := rfl

theorem creditSplit_cons (debts : String → ℚ) (p : String) (rest : List String) (share : ℚ) :
    creditSplit debts (p :: rest) share =
      creditSplit (if p = "You" then debts else updateDebt debts p share) rest share := rfl

theorem creditSplit_you (people : List String) (debts : String → ℚ) (share : ℚ) :
    creditSplit debts people share "You" = debts "You" := by
  induction people generalizing debts with
  | nil => rfl
  | cons p rest ih =>
      rw [creditSplit_cons]
      by_cases hp : p = "You"
      · rw [if_pos hp, ih]
      · rw [if_neg hp, ih, updateDebt, if_neg (fun h => hp h.symm)]

theorem creditSplit_apply (people : List String) (debts : String → ℚ) (share : ℚ)
    (x : String) (hx : x ≠ "You") :
    creditSplit debts people share x = debts x + people.count x * share := by
  induction people generalizing debts with
  | nil => simp [creditSplit_nil]
  | cons p rest ih =>
      rw [creditSplit_cons]
      by_cases hp : p = "You"
      · rw [if_pos hp, ih]
        have hxp : ¬ x = p := fun h => hx (h.trans hp)
        simp [List.count_cons, hxp]
      · rw [if_neg hp, ih, updateDebt]
        by_cases hxp : x = p
        · rw [if_pos hxp, List.count_cons, if_pos (by simp [hxp])]
          push_cast
          ring
        · have hpx : (p == x) = false := beq_eq_false_iff_ne.2 (fun h => hxp h.symm)
          rw [if_neg hxp, List.count_cons, hpx]
          simp

theorem processExpense_apply_you (debts : String → ℚ) (e : Expense) :
    processExpense debts e "You" = debts "You" := by
  rw [processExpense]
  by_cases h0 : e.splitWith.length = 0
  · rw [if_pos h0]
  · rw [if_neg h0]
    by_cases hp : e.paidBy = "You"
    · simp only [if_pos hp]
      exact creditSplit_you _ _ _
    · simp only [if_neg hp]
      by_cases hm : "You" ∈ e.splitWith
      · rw [if_pos hm, updateDebt, if_neg (fun h => hp h.symm)]
      · rw [if_neg hm]

theorem processExpense_empty (debts : String → ℚ) (e : Expense) (h : e.splitWith = []) :
    processExpense debts e = debts := by
  rw [processExpense, if_pos (by simp [h])]

/-! Facts about the participants collection. -/

theorem mem_insertNew (seen : List String) (name x : String) :
    x ∈ insertNew seen name ↔ x ∈ seen ∨ x = name := by
  rw [insertNew]
  by_cases h : name ∈ seen
  · rw [if_pos h]
    constructor
    · exact Or.inl
    · rintro (hx | hx)
      · exact hx
      · exact hx ▸ h
  · rw [if_neg h]
    simp

theorem mem_foldl_insertNew (names : List String) (seen : List String) (x : String) :
    x ∈ names.foldl insertNew seen ↔ x ∈ seen ∨ x ∈ names := by
  induction names generalizing seen with
  | nil => simp
  | cons n rest ih =>
      rw [List.foldl_cons, ih, mem_insertNew]
      simp [or_assoc]

theorem mem_getUniqueFriends (expenses : List Expense) (x : String) :
    x ∈ getUniqueFriends expenses ↔ ∃ e ∈ expenses, x ∈ expenseParticipants e := by
  have key : ∀ (es : List Expense) (seen : List String),
      x ∈ es.foldl (fun seen e => (expenseParticipants e).foldl insertNew seen) seen ↔
        x ∈ seen ∨ ∃ e ∈ es, x ∈ expenseParticipants e := by
    intro es
    induction es with
    | nil => simp
    | cons e rest ih =>
        intro seen
        rw [List.foldl_cons, ih, mem_foldl_insertNew]
        simp [or_assoc]
  rw [getUniqueFriends, key]
  simp

theorem you_not_mem_expenseParticipants (e : Expense) :
    "You" ∉ expenseParticipants e := by
  rw [expenseParticipants]
  intro h
  rcases List.mem_append.1 h with h1 | h2
  · by_cases hp : e.paidBy = "You"
    · rw [if_pos hp] at h1
      exact (List.not_mem_nil _ h1)
    · rw [if_neg hp] at h1
      exact hp ((List.mem_singleton.1 h1).symm)
  · have := (List.mem_filter.1 h2).2
    simp at this

theorem you_not_mem_getUniqueFriends (expenses : List Expense) :
    "You" ∉ getUniqueFriends expenses := by
  rw [mem_getUniqueFriends]
  rintro ⟨e, -, hmem⟩
  exact you_not_mem_expenseParticipants e hmem

theorem nodup_insertNew (seen : List String) (name : String) (h : seen.Nodup) :
    (insertNew seen name).Nodup := by
  rw [insertNew]
  by_cases hm : name ∈ seen
  · rwa [if_pos hm]
  · rw [if_neg hm, List.nodup_append]
    refine ⟨h, List.nodup_singleton _, fun a ha hb => ?_⟩
    rw [List.mem_singleton] at hb
    exact hm (hb ▸ ha)

theorem nodup_foldl_insertNew (names : List String) (seen : List String) (h : seen.Nodup) :
    (names.foldl insertNew seen).Nodup := by
  induction names generalizing seen with
  | nil => exact h
  | cons n rest ih => exact ih _ (nodup_insertNew _ _ h)

theorem nodup_getUniqueFriends (expenses : List Expense) :
    (getUniqueFriends expenses).Nodup := by
  rw [getUniqueFriends]
  have key : ∀ (es : List Expense) (seen : List String), seen.Nodup →
      (es.foldl (fun seen e => (expenseParticipants e).foldl insertNew seen) seen).Nodup := by
    intro es
    induction es with
    | nil => exact fun _ h => h
    | cons e rest ih => exact fun seen h => ih _ (nodup_foldl_insertNew _ _ h)
  exact key expenses [] List.nodup_nil

/-! Names outside the participants of an expense keep their debt. -/

theorem processExpense_apply_notMem (debts : String → ℚ) (e : Expense) (x : String)
    (hx : x ∉ expenseParticipants e) :
    processExpense debts e x = debts x := by
  by_cases hxy : x = "You"
  · exact hxy ▸ processExpense_apply_you debts e
  · have hx' : x ∉ e.splitWith ∨ x = "You" := by
      rcases Decidable.em (x ∈ e.splitWith) with hm | hm
      · exact absurd (List.mem_append.2 (Or.inr (List.mem_filter.2 ⟨hm, decide_eq_true hxy⟩)))
          (by rwa [expenseParticipants] at hx)
      · exact Or.inl hm
    have hxs : x ∉ e.splitWith := hx'.resolve_right hxy
    rw [processExpense]
    by_cases h0 : e.splitWith.length = 0
    · rw [if_pos h0]
    · rw [if_neg h0]
      by_cases hp : e.paidBy = "You"
      · simp only [if_pos hp]
        rw [creditSplit_apply _ _ _ _ hxy, List.count_eq_zero.2 hxs]
        simp
      · simp only [if_neg hp]
        have hxp : x ≠ e.paidBy := by
          intro h
          exact hx (by
            rw [expenseParticipants]
            exact List.mem_append.2 (Or.inl (by rw [if_neg hp]; exact h ▸ List.mem_singleton_self x)))
        by_cases hm : "You" ∈ e.splitWith
        · rw [if_pos hm, updateDebt, if_neg hxp]
        · rw [if_neg hm]

theorem foldl_processExpense_notMem (expenses : List Expense) (debts : String → ℚ) (x : String)
    (hx : ∀ e ∈ expenses, x ∉ expenseParticipants e) :
    (expenses.foldl processExpense debts) x = debts x := by
  induction expenses generalizing debts with
  | nil => rfl
  | cons e rest ih =>
      rw [List.foldl_cons, ih _ (fun f hf => hx f (List.mem_cons_of_mem _ hf)),
        processExpense_apply_notMem _ _ _ (hx e (List.mem_cons_self _ _))]

theorem friendDebts_eq_zero_of_not_mem (expenses : List Expense) (x : String)
    (hx : x ∉ getUniqueFriends expenses) :
    friendDebts expenses x = 0 := by
  rw [friendDebts, foldl_processExpense_notMem]
  intro e he hmem
  exact hx ((mem_getUniqueFriends expenses x).2 ⟨e, he, hmem⟩)

/-! The `summaryData` loop, step by step and folded. -/

theorem summaryStep_debts (acc : SummaryAcc) (e : Expense) :
    (summaryStep acc e).debts = processExpense acc.debts e := by
  simp only [summaryStep, processExpense]
  split_ifs <;> rfl

theorem summaryStep_totalSpent (acc : SummaryAcc) (e : Expense) :
    (summaryStep acc e).totalSpent = acc.totalSpent + e.amount := by
  simp only [summaryStep]
  split_ifs <;> rfl

theorem summaryStep_youPaid (acc : SummaryAcc) (e : Expense) :
    (summaryStep acc e).youPaid =
      acc.youPaid + (if e.paidBy = "You" ∧ e.splitWith ≠ [] then e.amount else 0) := by
  simp only [summaryStep]
  by_cases h0 : e.splitWith.length = 0
  · have hnil : e.splitWith = [] := List.length_eq_zero.1 h0
    simp [h0, hnil]
  · have hne : e.splitWith ≠ [] := fun h => h0 (by simp [h])
    by_cases hp : e.paidBy = "You"
    · simp [h0, hp, hne]
    · by_cases hm : "You" ∈ e.splitWith <;> simp [h0, hp, hne, hm]

theorem foldl_summaryStep_totalSpent (expenses : List Expense) (acc : SummaryAcc) :
    (expenses.foldl summaryStep acc).totalSpent =
      acc.totalSpent + (expenses.map Expense.amount).sum := by
  induction expenses generalizing acc with
  | nil => simp
  | cons e rest ih =>
      rw [List.foldl_cons, ih, summaryStep_totalSpent]
      simp [add_assoc]

theorem foldl_summaryStep_youPaid (expenses : List Expense) (acc : SummaryAcc) :
    (expenses.foldl summaryStep acc).youPaid =
      acc.youPaid +
        ((expenses.filter fun e => decide (e.paidBy = "You" ∧ e.splitWith ≠ [])).map
          Expense.amount).sum := by
  induction expenses generalizing acc with
  | nil => simp
  | cons e rest ih =>
      rw [List.foldl_cons, ih, summaryStep_youPaid]
      by_cases h : e.paidBy = "You" ∧ e.splitWith ≠ []
      · simp [List.filter_cons, h, add_assoc]
      · simp [List.filter_cons, h]

theorem foldl_summaryStep_debts (expenses : List Expense) (acc : SummaryAcc) :
    (expenses.foldl summaryStep acc).debts = expenses.foldl processExpense acc.debts := by
  induction expenses generalizing acc with
  | nil => rfl
  | cons e rest ih => rw [List.foldl_cons, List.foldl_cons, ih, summaryStep_debts]

/-! The two total-accumulating passes as sums over filtered lists. -/

theorem foldl_pos_sum (l : List ℚ) (t : ℚ) :
    l.foldl (fun t a => if 0 < a then t + a else t) t =
      t + (l.filter (fun a => decide (0 < a))).sum := by
  induction l generalizing t with
  | nil => simp
  | cons a rest ih =>
      rw [List.foldl_cons, ih]
      by_cases h : 0 < a
      · simp [List.filter_cons, h, add_assoc]
      · simp [List.filter_cons, h]

theorem foldl_owe_sum (l : List ℚ) (t : ℚ) :
    l.foldl (fun t a => if 0 < a then t else t + |a|) t =
      t + ((l.filter (fun a => !decide (0 < a))).map (fun a => |a|)).sum := by
  induction l generalizing t with
  | nil => simp
  | cons a rest ih =>
      rw [List.foldl_cons, ih]
      by_cases h : 0 < a
      · simp [List.filter_cons, h]
      · simp [List.filter_cons, h, add_assoc]

/-! `posSum` and `negSum` of the entry list. -/

theorem posSum_nil : posSum [] = 0 := rfl

theorem negSum_nil : negSum [] = 0 := rfl

theorem posSum_cons (n : String) (q : ℚ) (l : List (String × ℚ)) :
    posSum ((n, q) :: l) = (if 0 < q then q else 0) + posSum l := by
  rw [posSum, posSum, List.map_cons]
  by_cases h : 0 < q <;> simp [List.filter_cons, h]

theorem negSum_cons (n : String) (q : ℚ) (l : List (String × ℚ)) :
    negSum ((n, q) :: l) = (if q < 0 then |q| else 0) + negSum l := by
  rw [negSum, negSum, List.map_cons]
  by_cases h : q < 0 <;> simp [List.filter_cons, h]

theorem posSum_perm {l l' : List (String × ℚ)} (h : l.Perm l') : posSum l = posSum l' := by
  rw [posSum, posSum]
  exact ((h.map Prod.snd).filter _).sum_eq

theorem negSum_perm {l l' : List (String × ℚ)} (h : l.Perm l') : negSum l = negSum l' := by
  rw [negSum, negSum]
  exact (((h.map Prod.snd).filter _).map _).sum_eq

theorem posSum_filterMap (friends : List String) (debts : String → ℚ)
    (H : ∀ f ∈ friends, debts f = 0 ∨ 1/100 < |debts f|) :
    posSum (friends.filterMap fun n => if 1/100 < |debts n| then some (n, debts n) else none) =
      ((friends.map debts).filter (fun a => decide (0 < a))).sum := by
  induction friends with
  | nil => simp [posSum_nil]
  | cons n rest ih =>
      have Hn := H n (List.mem_cons_self _ _)
      have Hrest := fun f hf => H f (List.mem_cons_of_mem _ hf)
      rw [List.filterMap_cons, List.map_cons]
      by_cases hc : 1/100 < |debts n|
      · simp only [if_pos hc]
        rw [posSum_cons, ih Hrest]
        by_cases hq : 0 < debts n <;> simp [List.filter_cons, hq]
      · have h0 : debts n = 0 := Hn.resolve_right hc
        simp only [if_neg hc]
        rw [ih Hrest, h0]
        simp [List.filter_cons]

theorem negSum_filterMap (friends : List String) (debts : String → ℚ)
    (H : ∀ f ∈ friends, debts f = 0 ∨ 1/100 < |debts f|) :
    negSum (friends.filterMap fun n => if 1/100 < |debts n| then some (n, debts n) else none) =
      (((friends.map debts).filter (fun a => !decide (0 < a))).map (fun a => |a|)).sum := by
  induction friends with
  | nil => simp [negSum_nil]
  | cons n rest ih =>
      have Hn := H n (List.mem_cons_self _ _)
      have Hrest := fun f hf => H f (List.mem_cons_of_mem _ hf)
      rw [List.filterMap_cons, List.map_cons]
      by_cases hc : 1/100 < |debts n|
      · simp only [if_pos hc]
        rw [negSum_cons, ih Hrest]
        have hne : debts n ≠ 0 := by
          intro h
          rw [h] at hc
          norm_num at hc
        by_cases hq : 0 < debts n
        · have hnlt : ¬ debts n < 0 := fun hlt => absurd (lt_trans hlt hq) (lt_irrefl _)
          simp [List.filter_cons, hq, hnlt]
        · have hlt : debts n < 0 := lt_of_le_of_ne (le_of_not_lt hq) hne
          simp [List.filter_cons, hq, hlt]
      · have h0 : debts n = 0 := Hn.resolve_right hc
        simp only [if_neg hc]
        rw [ih Hrest, h0]
        simp [List.filter_cons]

theorem map_fst_filterMap (names : List String) (f : String → ℚ) :
    (names.filterMap fun n => if 1/100 < |f n| then some (n, f n) else none).map Prod.fst =
      names.filter (fun n => decide (1/100 < |f n|)) := by
  induction names with
  | nil => rfl
  | cons n rest ih =>
      rw [List.filterMap_cons]
      by_cases hc : 1/100 < |f n|
      · simp only [if_pos hc]
        rw [List.map_cons, ih, List.filter_cons, decide_eq_true hc]
        simp
      · simp only [if_neg hc]
        rw [ih, List.filter_cons, decide_eq_false hc]
        simp

/-! Membership in the emitted balance list. -/

theorem fst_mem_friends_of_mem_balances (expenses : List Expense) (p : String × ℚ)
    (hp : p ∈ friendBalances expenses) : p.1 ∈ getUniqueFriends expenses := by
  have hp' : p ∈ balanceEntries expenses :=
    (List.perm_insertionSort nameLe (balanceEntries expenses)).mem_iff.1 hp
  unfold balanceEntries at hp'
  obtain ⟨a, ha, hfa⟩ := List.mem_filterMap.1 hp'
  by_cases hc : 1/100 < |friendDebts expenses a|
  · rw [if_pos hc] at hfa
    have ha' : a = p.1 := by
      have := congrArg Prod.fst (Option.some.inj hfa)
      simpa using this
    exact ha' ▸ ha
  · rw [if_neg hc] at hfa
    cases hfa

/-! Character-level facts about the payment-link sanitiser. -/

theorem mem_of_mem_removeFirstAt (l : List Char) (c : Char)
    (h : c ∈ PaymentUtils.removeFirstAt l) : c ∈ l := by
  induction l with
  | nil => simp [PaymentUtils.removeFirstAt] at h
  | cons a rest ih =>
      rw [PaymentUtils.removeFirstAt] at h
      by_cases ha : a = '@'
      · rw [if_pos ha] at h
        exact List.mem_cons_of_mem _ h
      · rw [if_neg ha] at h
        rcases List.mem_cons.1 h with h1 | h2
        · exact h1 ▸ List.mem_cons_self _ _
        · exact List.mem_cons_of_mem _ (ih h2)

theorem not_mem_removeFirstAt_of_count_le_one (l : List Char)
    (h : l.count '@' ≤ 1) : '@' ∉ PaymentUtils.removeFirstAt l := by
  induction l with
  | nil => simp [PaymentUtils.removeFirstAt]
  | cons a rest ih =>
      rw [PaymentUtils.removeFirstAt]
      by_cases ha : a = '@'
      · rw [if_pos ha]
        have hcount : rest.count '@' = 0 := by
          rw [List.count_cons] at h
          simp [ha] at h
          omega
        exact List.count_eq_zero.1 hcount
      · rw [if_neg ha]
        intro hmem
        rcases List.mem_cons.1 hmem with h1 | h2
        · exact ha h1.symm
        · have hcount : rest.count '@' ≤ 1 := by
            rw [List.count_cons] at h
            omega
          exact ih hcount h2

theorem mem_cleanUsername (u : String) (c : Char)
    (h : c ∈ (PaymentUtils.cleanUsername u).data) :
    PaymentUtils.allowedChar c = true ∧ c ∈ u.data := by
  have h' : c ∈ u.data.filter PaymentUtils.allowedChar := h
  exact ⟨(List.mem_filter.1 h').2, (List.mem_filter.1 h').1⟩

/-! The claims. -/

/-- C3: when the sentinel paid an expense split among `n ≥ 1` distinct
participants, every participant other than the sentinel is credited
exactly `amount / n`. -/
theorem C3_sentinel_paid_share (debts : String → ℚ) (e : Expense) (p : String)
    (hpaid : e.paidBy = "You") (hnodup : e.splitWith.Nodup) (hp : p ∈ e.splitWith)
    (hpy : p ≠ "You") :
    processExpense debts e p = debts p + e.amount / (e.splitWith.length : ℚ) := by
  have h0 : ¬ e.splitWith.length = 0 := by
    rw [List.length_eq_zero]
    exact List.ne_nil_of_mem hp
  rw [processExpense, if_neg h0]
  simp only [if_pos hpaid]
  rw [creditSplit_apply _ _ _ _ hpy, List.count_eq_one_of_mem hnodup hp]
  simp

/-- C3 witness: in the P3 scenario (the sentinel pays 90 split among
A, B, C), participant A is credited exactly 30. -/
theorem C3_witness : processExpense (fun _ => 0) expenseP3 "A" = 30 := by
  have h := C3_sentinel_paid_share (fun _ => 0) expenseP3 "A" rfl (by decide) (by decide)
    (by decide)
  rw [h]
  norm_num [expenseP3]

/-- C4: when a friend paid, the payer is debited the user's share exactly
when the sentinel is among the participants, no other balance ever
changes, and the amount always reaches `totalSpent`. -/
theorem C4_friend_paid (debts : String → ℚ) (e : Expense) (x : String)
    (hpaid : e.paidBy ≠ "You") (hne : e.splitWith ≠ []) :
    ("You" ∈ e.splitWith →
        processExpense debts e e.paidBy = debts e.paidBy - e.amount / (e.splitWith.length : ℚ)
          ∧ (x ≠ e.paidBy → processExpense debts e x = debts x))
      ∧ ("You" ∉ e.splitWith → processExpense debts e x = debts x)
      ∧ (∀ acc, (summaryStep acc e).totalSpent = acc.totalSpent + e.amount) := by
  have h0 : ¬ e.splitWith.length = 0 := by
    rw [List.length_eq_zero]
    exact hne
  refine ⟨fun hm => ?_, fun hm => ?_, fun acc => summaryStep_totalSpent acc e⟩
  · rw [processExpense, if_neg h0]
    simp only [if_neg hpaid, if_pos hm]
    constructor
    · rw [updateDebt]
      rw [if_pos rfl]
      ring
    · intro hx
      rw [updateDebt, if_neg hx]
  · rw [processExpense, if_neg h0]
    simp only [if_neg hpaid, if_neg hm]

/-- C4 witness: in the P4 scenario (A pays 60 split with the user), A's
balance becomes exactly -30 and an uninvolved name B stays at 0. -/
theorem C4_witness :
    processExpense (fun _ => 0) expenseP4 "A" = -30
      ∧ processExpense (fun _ => 0) expenseP4 "B" = 0 := by
  have h := C4_friend_paid (fun _ => 0) expenseP4 "B" (by decide) (by decide)
  constructor
  · show processExpense (fun _ => 0) expenseP4 expenseP4.paidBy = -30
    rw [(h.1 (by decide)).1]
    norm_num [expenseP4]
  · exact (h.1 (by decide)).2 (by decide)

/-- C7: an expense with an empty `splitWith` is skipped without error:
inserted anywhere in the list it leaves every running balance unchanged,
while its amount still reaches `totalSpent`; the per-expense step on it
is the identity on the debts record. -/
theorem C7_graceful_skip (e : Expense) (h : e.splitWith = []) :
    (∀ debts, processExpense debts e = debts)
      ∧ ∀ (pre post : List Expense) (x : String),
          friendDebts (pre ++ e :: post) x = friendDebts (pre ++ post) x
            ∧ (summaryData (pre ++ e :: post)).totalSpent =
                (summaryData (pre ++ post)).totalSpent + e.amount := by
  refine ⟨fun debts => processExpense_empty debts e h, fun pre post x => ⟨?_, ?_⟩⟩
  · rw [friendDebts, friendDebts, List.foldl_append, List.foldl_append, List.foldl_cons,
      processExpense_empty _ _ h]
  · simp only [summaryData]
    rw [foldl_summaryStep_totalSpent, foldl_summaryStep_totalSpent]
    simp [List.sum_append]
    ring

/-- C7 witness: the concrete empty-split expense leaves Alex's balance
untouched and adds its amount, 10, to `totalSpent`. -/
theorem C7_witness :
    processExpense (fun _ => 0) cexNoSplit = (fun _ => 0)
      ∧ friendDebts [cexNoSplit] "Alex" = friendDebts [] "Alex"
      ∧ (summaryData [cexNoSplit]).totalSpent = (summaryData []).totalSpent + 10 := by
  have h := C7_graceful_skip cexNoSplit rfl
  exact ⟨h.1 _, (h.2 [] [] "Alex").1, (h.2 [] [] "Alex").2⟩

/-- C8: the sentinel current-user name never appears as the name of an
emitted balance entry. -/
theorem C8_sentinel_excluded (expenses : List Expense) :
    "You" ∉ (friendBalances expenses).map Prod.fst := by
  intro hmem
  obtain ⟨p, hp, hfst⟩ := List.mem_map.1 hmem
  exact you_not_mem_getUniqueFriends expenses
    (hfst ▸ fst_mem_friends_of_mem_balances expenses p hp)

/-- C8 witness: at the P4 scenario the sentinel does appear in the data,
and still names no emitted entry. -/
theorem C8_witness : "You" ∉ (friendBalances [expenseP4]).map Prod.fst :=
  C8_sentinel_excluded [expenseP4]

/-- C9: the settle-up screen's independently written balance computation
agrees with the dashboard's on every expense list. -/
theorem C9_implementations_agree (expenses : List Expense) :
    SettleUp.friendBalances expenses = friendBalances expenses := rfl

/-- C10 (amended): every character of the cleaned username is in the
allowed class `[a-zA-Z0-9@$]` and comes from the input; the same holds
for the Venmo variant, from which only the FIRST `'@'` is removed (so no
`'@'` survives when the cleaned username holds at most one); and each of
the four URL shapes is built from exactly these cleaned usernames. -/
theorem C10_username_sanitization (u : String) (c : Char) :
    (c ∈ (PaymentUtils.cleanUsername u).data →
        PaymentUtils.allowedChar c = true ∧ c ∈ u.data)
      ∧ (c ∈ (PaymentUtils.venmoUsername u).data →
          PaymentUtils.allowedChar c = true ∧ c ∈ u.data)
      ∧ ((PaymentUtils.cleanUsername u).data.count '@' ≤ 1 →
          '@' ∉ (PaymentUtils.venmoUsername u).data)
      ∧ PaymentUtils.webCashappUrl u none = "https://cash.app/" ++ PaymentUtils.cleanUsername u
      ∧ PaymentUtils.webVenmoUrl u none = "https://venmo.com/" ++ PaymentUtils.venmoUsername u
      ∧ PaymentUtils.deepCashappUrl u none =
          "cashapp://cash.app/" ++ PaymentUtils.cleanUsername u
      ∧ PaymentUtils.deepVenmoUrl u none none =
          "venmo://paycharge?txn=pay&recipients=" ++ PaymentUtils.venmoUsername u := by
  refine ⟨mem_cleanUsername u c, fun hc => ?_, fun hcount => ?_, ?_, ?_, ?_, ?_⟩
  · exact mem_cleanUsername u c (mem_of_mem_removeFirstAt _ _ hc)
  · exact not_mem_removeFirstAt_of_count_le_one _ hcount
  · simp [PaymentUtils.webCashappUrl, PaymentUtils.amountPath]
  · simp [PaymentUtils.webVenmoUrl]
  · simp [PaymentUtils.deepCashappUrl, PaymentUtils.amountPath]
  · simp [PaymentUtils.deepVenmoUrl]

/-- C10 witness: on the username string consisting of one letter, the
cleaned username keeps the letter, which indeed lies in the allowed class
and in the input. -/
theorem C10_witness :
    PaymentUtils.allowedChar 'a' = true ∧ 'a' ∈ ("a" : String).data := by
  have h := C10_username_sanitization "a" 'a'
  exact h.1 (by decide)

/-- C10 counterexample: with two leading `'@'` characters, the Venmo
username part, and hence the Venmo web URL, still contains `'@'` — the
claim's "`'@'` removed for Venmo URLs" fails as stated. -/
theorem C10_counterexample :
    '@' ∈ (PaymentUtils.venmoUsername "@@a").data
      ∧ '@' ∈ (PaymentUtils.webVenmoUrl "@@a" none).data := by
  decide

/-- C1 (amended): `netBalance = youAreOwed - youOwe` holds for every
expense list; and whenever no accumulated balance falls inside the
half-open suppression band `(0, 0.01]` in absolute value, `youAreOwed`
and `youOwe` agree with the positive / absolute-negative sums over the
emitted `friendBalances` (the totals are computed from ALL accumulated
balances, the emitted list only from those above the epsilon). -/
theorem C1_summary_consistency (expenses : List Expense) :
    (summaryData expenses).netBalance =
        (summaryData expenses).youAreOwed - (summaryData expenses).youOwe
      ∧ ((∀ f ∈ getUniqueFriends expenses,
            friendDebts expenses f = 0 ∨ 1/100 < |friendDebts expenses f|) →
          (summaryData expenses).youAreOwed = posSum (friendBalances expenses)
            ∧ (summaryData expenses).youOwe = negSum (friendBalances expenses)) := by
  have hdebts : (expenses.foldl summaryStep
      { totalSpent := 0, youPaid := 0, debts := fun _ => 0 }).debts = friendDebts expenses :=
    foldl_summaryStep_debts expenses _
  have hperm := List.perm_insertionSort nameLe (balanceEntries expenses)
  constructor
  · rfl
  · intro H
    have hA : (summaryData expenses).youAreOwed =
        (((getUniqueFriends expenses).map (friendDebts expenses)).filter
          (fun a => decide (0 < a))).sum := by
      simp only [summaryData]
      rw [hdebts, foldl_pos_sum, zero_add]
    have hB : (summaryData expenses).youOwe =
        ((((getUniqueFriends expenses).map (friendDebts expenses)).filter
          (fun a => !decide (0 < a))).map (fun a => |a|)).sum := by
      simp only [summaryData]
      rw [hdebts, foldl_owe_sum, zero_add]
    constructor
    · rw [hA, friendBalances, posSum_perm hperm]
      unfold balanceEntries
      rw [posSum_filterMap _ _ H]
    · rw [hB, friendBalances, negSum_perm hperm]
      unfold balanceEntries
      rw [negSum_filterMap _ _ H]

/-- C1 witness: at the P4 scenario (one balance, -30) the totals and the
emitted list agree as the amended claim states. -/
theorem C1_witness :
    (summaryData [expenseP4]).netBalance =
        (summaryData [expenseP4]).youAreOwed - (summaryData [expenseP4]).youOwe
      ∧ (summaryData [expenseP4]).youAreOwed = posSum (friendBalances [expenseP4])
      ∧ (summaryData [expenseP4]).youOwe = negSum (friendBalances [expenseP4]) := by
  have h := C1_summary_consistency [expenseP4]
  have hval : friendDebts [expenseP4] "A" = -30 := by
    simp [friendDebts, processExpense, updateDebt, creditSplit, expenseP4]
    norm_num
  have hH : ∀ f ∈ getUniqueFriends [expenseP4],
      friendDebts [expenseP4] f = 0 ∨ 1/100 < |friendDebts [expenseP4] f| := by
    intro f hf
    simp [getUniqueFriends, expenseParticipants, insertNew, expenseP4] at hf
    subst hf
    right
    rw [hval, abs_of_neg (by norm_num)]
    norm_num
  exact ⟨h.1, (h.2 hH).1, (h.2 hH).2⟩

/-- C1 counterexample: one expense of 0.01 paid by the user for Alex alone
leaves Alex's balance at exactly the epsilon, so it is suppressed from
`friendBalances` while still counted in `youAreOwed`: the claimed
equality with the emitted list's positive sum fails. -/
theorem C1_counterexample :
    ¬ ((summaryData [cexEpsilon]).netBalance =
          (summaryData [cexEpsilon]).youAreOwed - (summaryData [cexEpsilon]).youOwe
        ∧ (summaryData [cexEpsilon]).youAreOwed = posSum (friendBalances [cexEpsilon])
        ∧ (summaryData [cexEpsilon]).youOwe = negSum (friendBalances [cexEpsilon])) := by
  intro h
  have habs : |(1:ℚ)/100| = 1/100 := abs_of_pos (by norm_num)
  have habs' : |((100:ℚ))⁻¹| = 100⁻¹ := abs_of_pos (by norm_num)
  have hp : (0:ℚ) < 1/100 := by norm_num
  have hp' : (0:ℚ) < 100⁻¹ := by norm_num
  have h2 := h.2.1
  simp [summaryData, summaryStep, creditSplit, updateDebt, friendDebts, processExpense,
    getUniqueFriends, insertNew, expenseParticipants, friendBalances, balanceEntries, posSum,
    cexEpsilon, List.insertionSort, habs, habs', hp, hp'] at h2

/-- C2 (amended): `youPaid` is the sum of the amounts of the expenses paid
by the sentinel whose `splitWith` is non-empty (an empty split returns
before the `youPaid` accumulation in the source). -/
theorem C2_you_paid (expenses : List Expense) :
    (summaryData expenses).youPaid =
      ((expenses.filter fun e => decide (e.paidBy = "You" ∧ e.splitWith ≠ [])).map
        Expense.amount).sum := by
  simp only [summaryData]
  rw [foldl_summaryStep_youPaid]
  simp

/-- C2 counterexample: an expense of 10 paid by the user with
`splitWith = []` is skipped before `youPaid` accumulates, so `youPaid`
is 0, not the claimed sum 10 over all expenses paid by the sentinel. -/
theorem C2_counterexample :
    ¬ ((summaryData [cexNoSplit]).youPaid =
        (([cexNoSplit].filter fun e => decide (e.paidBy = "You")).map Expense.amount).sum) := by
  intro h
  norm_num [summaryData, summaryStep, cexNoSplit, List.filter_cons] at h

/-- C5: a pair is an emitted balance entry exactly when its amount is the
counterparty's accumulated balance and that balance exceeds the 0.01
epsilon in absolute value (so an exactly-zero balance never appears),
and no counterparty is listed twice. -/
theorem C5_epsilon_suppression (expenses : List Expense) :
    (∀ (x : String) (amt : ℚ),
        (x, amt) ∈ friendBalances expenses ↔
          amt = friendDebts expenses x ∧ 1/100 < |friendDebts expenses x|)
      ∧ ((friendBalances expenses).map Prod.fst).Nodup := by
  have hperm := List.perm_insertionSort nameLe (balanceEntries expenses)
  constructor
  · intro x amt
    rw [friendBalances, hperm.mem_iff]
    unfold balanceEntries
    rw [List.mem_filterMap]
    constructor
    · rintro ⟨a, ha, hfa⟩
      by_cases hc : 1/100 < |friendDebts expenses a|
      · rw [if_pos hc] at hfa
        have h1 : a = x := by
          have := congrArg Prod.fst (Option.some.inj hfa)
          simpa using this
        have h2 : friendDebts expenses a = amt := by
          have := congrArg Prod.snd (Option.some.inj hfa)
          simpa using this
        subst h1
        exact ⟨h2.symm, hc⟩
      · rw [if_neg hc] at hfa
        cases hfa
    · rintro ⟨rfl, hc⟩
      refine ⟨x, ?_, by rw [if_pos hc]⟩
      by_contra hmem
      rw [friendDebts_eq_zero_of_not_mem expenses x hmem] at hc
      norm_num at hc
  · rw [friendBalances, (hperm.map Prod.fst).nodup_iff]
    unfold balanceEntries
    rw [map_fst_filterMap]
    exact (nodup_getUniqueFriends expenses).filter _

/-- C6: the emitted balance list is always sorted ascending by name under
lexicographic comparison; in the P6 scenario the counterparties Zed, Amy,
Mo (first seen in that order) come out as Amy, Mo, Zed. -/
theorem C6_ordering :
    (∀ expenses : List Expense, (friendBalances expenses).Sorted nameLe)
      ∧ (friendBalances expensesP6).map Prod.fst = ["Amy", "Mo", "Zed"] := by
  constructor
  · intro expenses
    exact @List.sorted_insertionSort _ nameLe _
      ⟨fun a b => le_total a.1.data b.1.data⟩
      ⟨fun a b c hab hbc => le_trans hab hbc⟩
      (balanceEntries expenses)
  · have habs : |(30:ℚ)| = 30 := abs_of_pos (by norm_num)
    have hc1 : (1:ℚ)/100 < 30 := by norm_num
    have hc2 : ((100:ℚ))⁻¹ < 30 := by norm_num
    simp [friendBalances, balanceEntries, getUniqueFriends, insertNew, expenseParticipants,
      friendDebts, processExpense, creditSplit, updateDebt, expensesP6, List.insertionSort,
      List.orderedInsert, nameLe, habs, hc1, hc2,
      show ¬ ((['Z', 'e', 'd'] : List Char) ≤ ['A', 'm', 'y']) from by decide,
      show ¬ ((['Z', 'e', 'd'] : List Char) ≤ ['M', 'o']) from by decide]

end BillSplit
